import Mathlib

/-!
Verification development for the Flipper theme-manager engine
(`src/theme_manager.c`).

The filesystem state is embedded shallowly: a path is a list of name
components, a filesystem is a pair of maps giving each path an optional
file content and a directory flag.  Storage primitives that the engine
consumes (`storage_common_rename`, `storage_common_merge`,
`storage_simply_remove_recursive`, `storage_common_mkdir`, file write)
are modelled as pure state transformers; primitives that can fail in the
firmware are driven by an explicit fault record so that failure paths of
the engine are expressible.  Text parsing functions of the engine are
modelled over `List Char` (file contents), mirroring the C byte scans.
-/

-- ===================================================================
-- Paths and filesystem state
-- ===================================================================

abbrev FPath := List String

/-- `pathUnder q p` : `p` is `q` itself or lies inside the subtree rooted
at `q` (i.e. `q` is a component-wise prefix of `p`). -/
def pathUnder : FPath → FPath → Bool
  | [], _ => true
  | _ :: _, [] => false
  | a :: p, b :: q => a == b && pathUnder p q

structure FS where
  files : FPath → Option (List Char)
  dirs : FPath → Bool

def fileExists (fs : FS) (p : FPath) : Bool := (fs.files p).isSome

def dirExists (fs : FS) (p : FPath) : Bool := fs.dirs p

/-- Model of `storage_simply_remove_recursive`: the whole subtree at `q`
disappears. -/
def removeRec (fs : FS) (q : FPath) : FS :=
  { files := fun p => if pathUnder q p then none else fs.files p,
    dirs := fun p => if pathUnder q p then false else fs.dirs p }

/-- Model of a successful `storage_common_rename src dst` (a metadata-only
move of the subtree; the engine only invokes it after removing `dst`). -/
def renameOp (fs : FS) (src dst : FPath) : FS :=
  { files := fun p =>
      if pathUnder dst p then fs.files (src ++ p.drop dst.length)
      else if pathUnder src p then none
      else fs.files p,
    dirs := fun p =>
      if pathUnder dst p then fs.dirs (src ++ p.drop dst.length)
      else if pathUnder src p then false
      else fs.dirs p }

/-- Model of `storage_common_mkdir` (the engine ignores its status). -/
def mkdirOp (fs : FS) (q : FPath) : FS :=
  { fs with dirs := fun p => if p = q then true else fs.dirs p }

/-- Model of writing a whole file (create/overwrite). -/
def writeFile (fs : FS) (q : FPath) (c : List Char) : FS :=
  { fs with files := fun p => if p = q then some c else fs.files p }

/-- Modelled from the spec: the external storage primitive
`storage_common_merge` is an additive tree union — "files from source are
added/overwritten at the destination; files already in `active` but
absent from source are left untouched". -/
def mergeOp (fs : FS) (src dst : FPath) : FS :=
  { files := fun p =>
      if pathUnder dst p then
        match fs.files (src ++ p.drop dst.length) with
        | some c => some c
        | none => fs.files p
      else fs.files p,
    dirs := fun p =>
      if pathUnder dst p then (fs.dirs (src ++ p.drop dst.length) || fs.dirs p)
      else fs.dirs p }

-- Fixed paths of the engine (EXT_PATH roots).

def animationPacksPath : FPath := ["ext", "animation_packs"]

def dolphinPath : FPath := ["ext", "dolphin"]

def dolphinBackupPath : FPath := ["ext", "dolphin_backup"]

def dolphinManifestPath : FPath := ["ext", "dolphin", "manifest.txt"]

/-- Outcomes of the fallible storage calls the engine makes; each engine
operation consumes one record.  `writeLen` bounds how many bytes the
manifest write manages to put down. -/
structure StorageFaults where
  renameOk : Bool
  mergeOk : Bool
  manifestOpenOk : Bool
  writeLen : Nat

-- ===================================================================
-- Text scanning primitives (C `strstr` and friends over file contents)
-- ===================================================================

/-- Index of the first occurrence of `pat` in `hay` (C `strstr`). -/
def findSub : List Char → List Char → Option Nat
  | [], pat => if pat.isPrefixOf ([] : List Char) then some 0 else none
  | c :: t, pat => if pat.isPrefixOf (c :: t) then some 0 else (findSub t pat).map (· + 1)

def nameTok : List Char := ['N', 'a', 'm', 'e', ':']

def headerTok : List Char := "Filetype: Flipper Animation Manifest".toList

def lineInit : Option Char → Bool
  | none => true
  | some c => c == '\n'

/-- Loop of `theme_manager_parse_manifest`: repeated `strstr` for
`"Name:"`, counting an occurrence when it sits at the buffer start or
right after a newline, then skipping the 5 matched bytes.  `fuel` is the
remaining buffer length (the C loop consumes the buffer). -/
def countNamesLoopF : Nat → List Char → Option Char → Nat
  | 0, _, _ => 0
  | fuel + 1, s, prev =>
    if nameTok.isPrefixOf s then
      (if lineInit prev then 1 else 0) + countNamesLoopF fuel (s.drop 5) (some ':')
    else
      match s with
      | [] => 0
      | c :: t => countNamesLoopF fuel t (some c)

/-- `theme_manager_parse_manifest` on a file content: header check via
`strstr`, then the `"Name:"` counting loop. -/
def theme_manager_parse_manifest (content : List Char) : Bool × Nat :=
  if (findSub content headerTok).isSome then
    (true, countNamesLoopF content.length content none)
  else (false, 0)

/-- Body copy of `theme_manager_get_first_anim_name`: copy bytes until
NUL/newline/CR or until `cap` bytes were taken. -/
def captureName : List Char → Nat → List Char
  | _, 0 => []
  | [], _ + 1 => []
  | c :: t, n + 1 => if c == '\n' || c == '\r' then [] else c :: captureName t n

/-- `theme_manager_get_first_anim_name` on a manifest content:
`strstr("Name:")`, skip the 5 matched bytes, skip spaces, copy to
end-of-line with an `outSize - 1` cap; found iff at least one byte was
copied. -/
def theme_manager_get_first_anim_name (content : List Char) (outSize : Nat) :
    Option (List Char) :=
  match findSub content nameTok with
  | none => none
  | some i =>
    let nm := captureName ((content.drop (i + 5)).dropWhile (fun c => c == ' ')) (outSize - 1)
    if nm.length > 0 then some nm else none

def widthTok : List Char := "Width:".toList

def heightTok : List Char := "Height:".toList

/-- Model of `sscanf("%lu")` after a matched literal: skip whitespace,
then read a nonempty run of decimal digits. -/
def parseLu (s : List Char) : Option Nat :=
  let t := s.dropWhile (fun c => c == ' ' || c == '\t' || c == '\n' || c == '\r')
  let ds := t.takeWhile Char.isDigit
  if ds.isEmpty then none
  else some (ds.foldl (fun a c => a * 10 + (c.toNat - 48)) 0)

/-- One dimension field of `theme_manager_parse_meta_dimensions`:
`strstr` for the token, `sscanf` of the value right after it (`i + token
length` is where the value text begins), then the range check. -/
def scanDimField (content tok : List Char) (bound : Nat) : Option Nat :=
  match findSub content tok with
  | none => none
  | some i =>
    match parseLu (content.drop (i + tok.length)) with
    | none => none
    | some v => if 0 < v && v ≤ bound then some v else none

/-- `theme_manager_parse_meta_dimensions` on a meta content: first
`"Width:"` via `strstr` with value in `(0, 128]`, first `"Height:"` with
value in `(0, 64]`; both or nothing. -/
def theme_manager_parse_meta_dimensions (content : List Char) : Option (Nat × Nat) :=
  match scanDimField content widthTok 128, scanDimField content heightTok 64 with
  | some w, some h => some (w, h)
  | _, _ => none

-- ===================================================================
-- Engine operations over the filesystem model
-- ===================================================================

inductive ThemeType where
  | Pack
  | AnimsPack
  | Single
deriving DecidableEq

/-- `theme_manager_backup_dolphin`: no-op success when the active
directory is missing; otherwise discard any prior backup slot and rename
the active directory into the slot. -/
def theme_manager_backup_dolphin (fs : FS) (fl : StorageFaults) : Bool × FS :=
  if !(dirExists fs dolphinPath) then (true, fs)
  else
    let fs1 := if dirExists fs dolphinBackupPath then removeRec fs dolphinBackupPath else fs
    if fl.renameOk then (true, renameOp fs1 dolphinPath dolphinBackupPath)
    else (false, fs1)

/-- `theme_manager_restore_backup`: fail when the slot is missing;
otherwise remove any active directory and rename the slot onto it. -/
def theme_manager_restore_backup (fs : FS) (fl : StorageFaults) : Bool × FS :=
  if !(dirExists fs dolphinBackupPath) then (false, fs)
  else
    let fs1 := if dirExists fs dolphinPath then removeRec fs dolphinPath else fs
    if fl.renameOk then (true, renameOp fs1 dolphinBackupPath dolphinPath)
    else (false, fs1)

/-- `theme_manager_apply_pack`: merge the source tree into the active
directory. -/
def theme_manager_apply_pack (fs : FS) (fl : StorageFaults) (mergeSrcDir : FPath) : Bool × FS :=
  if fl.mergeOk then (true, mergeOp fs mergeSrcDir dolphinPath)
  else (false, fs)

def manifestHead : List Char :=
  "Filetype: Flipper Animation Manifest\nVersion: 1\n\nName: ".toList

def manifestTail : List Char :=
  "\nMin butthurt: 0\nMax butthurt: 14\nMin level: 1\nMax level: 30\nWeight: 5\n".toList

/-- The fixed stat lines that follow the `Name:` line in the synthesized
manifest. -/
def manifestStats : List Char :=
  "Min butthurt: 0\nMax butthurt: 14\nMin level: 1\nMax level: 30\nWeight: 5\n".toList

/-- Content of the manifest synthesized by `theme_manager_apply_single`. -/
def singleManifestChars (name : List Char) : List Char :=
  manifestHead ++ name ++ manifestTail

/-- `theme_manager_apply_single`: mkdir `dolphin/<name>`, merge the theme
folder into it, then write the synthesized manifest at
`dolphin/manifest.txt` (`FSOM_CREATE_ALWAYS`, so any prior manifest is
replaced); fail when fewer bytes than the content length get written. -/
def theme_manager_apply_single (fs : FS) (fl : StorageFaults) (name : String) : Bool × FS :=
  let src := animationPacksPath ++ [name]
  let dst := dolphinPath ++ [name]
  let fs1 := mkdirOp fs dst
  if !fl.mergeOk then (false, fs1)
  else
    let fs2 := mergeOp fs1 src dst
    if !fl.manifestOpenOk then (false, fs2)
    else
      let content := singleManifestChars name.toList
      let n := min fl.writeLen content.length
      let fs3 := writeFile fs2 dolphinManifestPath (content.take n)
      if n == content.length then (true, fs3) else (false, fs3)

/-- `theme_manager_apply_theme` on a valid catalog entry: backup first
(abort on its failure), mkdir the active directory, then dispatch on the
theme type. -/
def theme_manager_apply_theme (fs : FS) (fl : StorageFaults) (entry : ThemeType × String) :
    Bool × FS :=
  match theme_manager_backup_dolphin fs fl with
  | (false, fs1) => (false, fs1)
  | (true, fs1) =>
    let fs2 := mkdirOp fs1 dolphinPath
    match entry.1 with
    | ThemeType.Pack =>
      theme_manager_apply_pack fs2 fl (animationPacksPath ++ [entry.2])
    | ThemeType.AnimsPack =>
      theme_manager_apply_pack fs2 fl (animationPacksPath ++ [entry.2, "Anims"])
    | ThemeType.Single =>
      theme_manager_apply_single fs2 fl entry.2

/-- Merge source directory used by `theme_manager_apply_theme` for the
two pack formats (theme root for Pack, its `Anims` subdirectory for
AnimsPack). -/
def packMergeSrc (t : ThemeType) (name : String) : FPath :=
  match t with
  | ThemeType.Pack => animationPacksPath ++ [name]
  | ThemeType.AnimsPack => animationPacksPath ++ [name, "Anims"]
  | ThemeType.Single => []

/-- Classification probe order of `theme_manager_scan_themes` for one
subdirectory name. -/
def classifyThemeDir (fs : FS) (name : String) : Option ThemeType :=
  if fileExists fs (animationPacksPath ++ [name, "manifest.txt"]) then some ThemeType.Pack
  else if fileExists fs (animationPacksPath ++ [name, "Anims", "manifest.txt"]) then
    some ThemeType.AnimsPack
  else if fileExists fs (animationPacksPath ++ [name, "meta.txt"]) then some ThemeType.Single
  else none

/-- Scan loop: `fuel` is the remaining catalog capacity (the C loop runs
`while(theme_count < MAX_THEMES && storage_dir_read(...))`); non-directory
entries and unclassifiable directories are skipped. -/
def scanGo (fs : FS) : List (String × Bool) → Nat → List (String × ThemeType)
  | _, 0 => []
  | [], _ + 1 => []
  | (nm, isDir) :: rest, fuel + 1 =>
    if !isDir then scanGo fs rest (fuel + 1)
    else
      match classifyThemeDir fs nm with
      | some t => (nm, t) :: scanGo fs rest fuel
      | none => scanGo fs rest (fuel + 1)

/-- `theme_manager_scan_themes`: empty catalog when the root is missing,
else the classification loop over the directory listing with capacity
`MAX_THEMES = 64`. -/
def theme_manager_scan_themes (fs : FS) (listing : List (String × Bool)) :
    List (String × ThemeType) :=
  if !(dirExists fs animationPacksPath) then []
  else scanGo fs listing 64

-- ===================================================================
-- Preview loading
-- ===================================================================

/-- External inputs consumed by one `theme_manager_load_preview` run: the
relevant manifest's content (when it opens), the resolved meta file's
content, the first frame file's presence/size/read status, and the result
of the external `compress_icon_decode` codec. -/
structure PreviewEnv where
  manifestContent : Option (List Char)
  metaContent : Option (List Char)
  frameExists : Bool
  frameSize : Nat
  readOk : Bool
  decoded : Option (List Nat)

/-- Pack/AnimsPack previews must first resolve a first animation name
from the manifest; Single themes use their own folder directly. -/
def resolveFirstAnim (t : ThemeType) (env : PreviewEnv) : Bool :=
  match t with
  | ThemeType.Single => true
  | _ =>
    match env.manifestContent with
    | none => false
    | some mc => (theme_manager_get_first_anim_name mc 64).isSome

/-- `theme_manager_load_preview`: every failure (unresolved name, absent
or malformed meta, missing frame, size outside `[2, 2048]`, short read,
codec failure) yields `none`; on success the installed buffer holds
exactly `((w+7)/8) * h` bytes copied out of the codec's fixed-size decode
buffer. -/
def theme_manager_load_preview (t : ThemeType) (env : PreviewEnv) :
    Option (Nat × Nat × List Nat) :=
  if !(resolveFirstAnim t env) then none
  else
    match env.metaContent with
    | none => none
    | some meta =>
      match theme_manager_parse_meta_dimensions meta with
      | none => none
      | some (w, h) =>
        if !env.frameExists then none
        else if env.frameSize > 2048 || env.frameSize < 2 then none
        else if !env.readOk then none
        else
          match env.decoded with
          | none => none
          | some d =>
            let dsz := ((w + 7) / 8) * h
            some (w, h, d.take dsz ++ List.replicate (dsz - d.length) 0)

-- ===================================================================
-- Spec-side definitions (used to state the claims)
-- ===================================================================

/-- Line decomposition of a buffer (newline-separated, trailing partial
line included). -/
def linesOf : List Char -> List (List Char)
  | [] => [[]]
  | c :: t =>
    if c = '\n' then [] :: linesOf t
    else
      match linesOf t with
      | l :: ls => (c :: l) :: ls
      | [] => [[c]]

def startsWithName (l : List Char) : Bool := nameTok.isPrefixOf l

/-- Spec-side count of line-initial `"Name:"` occurrences: the number of
lines that begin with the token (equivalently, token occurrences at the
buffer start or right after a newline, since the token contains no
newline). -/
def countNameLines (content : List Char) : Nat :=
  ((linesOf content).filter startsWithName).length

/-- Spec-side "first occurrence of a token": the least index whose suffix
starts with the token. -/
def firstTokenIdx (content tok : List Char) : Option Nat :=
  (List.range content.length).find? (fun i => tok.isPrefixOf (content.drop i))

/-- Spec-side reading of `first_name` as the code actually behaves
(amended claim C3): first occurrence of `"Name:"` anywhere, following
spaces skipped, capture to end-of-line with a 63-byte cap, no trailing
trim. -/
def spec_first_name (content : List Char) : Option (List Char) :=
  match firstTokenIdx content nameTok with
  | none => none
  | some i =>
    let nm := (((content.drop (i + 5)).dropWhile (fun c => c == ' ')).takeWhile
      (fun c => !(c == '\n' || c == '\r'))).take 63
    if nm.isEmpty then none else some nm

def trimEndWS (l : List Char) : List Char :=
  (l.reverse.dropWhile (fun c => c == ' ' || c == '\t' || c == '\r')).reverse

/-- Least line-initial occurrence index of a token. -/
def lineInitialIdx (content tok : List Char) : Option Nat :=
  (List.range content.length).find? (fun i =>
    tok.isPrefixOf (content.drop i) && (i == 0 || content[i - 1]? == some '\n'))

/-- `first_name` as claim C3 words it: name taken from the first
line-initial `"Name:"`, spaces skipped, captured to end-of-line or the
cap, trailing whitespace trimmed. -/
def claimed_first_name (content : List Char) : Option (List Char) :=
  match lineInitialIdx content nameTok with
  | none => none
  | some i =>
    let nm := trimEndWS ((((content.drop (i + 5)).dropWhile (fun c => c == ' ')).takeWhile
      (fun c => !(c == '\n' || c == '\r'))).take 63)
    if nm.isEmpty then none else some nm

/-- `dimensions` as the spec words it: first `"Width:"` / `"Height:"`
token occurrences, each value a positive integer within range, both or
nothing. -/
def specDimField (content tok : List Char) (bound : Nat) : Option Nat :=
  match firstTokenIdx content tok with
  | none => none
  | some i =>
    match parseLu (content.drop (i + tok.length)) with
    | none => none
    | some v => if 0 < v && v ≤ bound then some v else none

def spec_meta_dimensions (content : List Char) : Option (Nat × Nat) :=
  match specDimField content widthTok 128, specDimField content heightTok 64 with
  | some w, some h => some (w, h)
  | _, _ => none

-- ===================================================================
-- Concrete demonstration inputs (for witnesses and counterexamples)
-- ===================================================================

def demoManifest : List Char :=
  "Filetype: Flipper Animation Manifest\nName: A\nXName: B\nName: C\n".toList

def demoMixed : List Char := "XName: C \nName: D\n".toList

def okFaults : StorageFaults := ⟨true, true, true, 1000000⟩

def renameFailFaults : StorageFaults := ⟨false, true, true, 1000000⟩

/-- A filesystem with one Pack theme `T` and an active directory holding
one unrelated file `old.txt`. -/
def demoFS : FS :=
  { files := fun p =>
      if p = ["ext", "animation_packs", "T", "manifest.txt"] then some headerTok
      else if p = ["ext", "dolphin", "old.txt"] then some ['o', 'l', 'd']
      else none,
    dirs := fun p =>
      decide (p ∈ [["ext"], ["ext", "animation_packs"], ["ext", "animation_packs", "T"],
        ["ext", "dolphin"]]) }

/-- A filesystem with a backup slot holding one file, and an active
directory holding another. -/
def demoSlotFS : FS :=
  { files := fun p =>
      if p = ["ext", "dolphin_backup", "keep.txt"] then some ['k']
      else if p = ["ext", "dolphin", "cur.txt"] then some ['c']
      else none,
    dirs := fun p =>
      decide (p ∈ [["ext"], ["ext", "dolphin_backup"], ["ext", "dolphin"]]) }

/-- A filesystem with no active directory but a populated backup slot. -/
def demoNoActiveFS : FS :=
  { files := fun p => if p = ["ext", "dolphin_backup", "keep.txt"] then some ['k'] else none,
    dirs := fun p => decide (p ∈ [["ext"], ["ext", "dolphin_backup"]]) }

/-- A filesystem with one Single theme `S`. -/
def demoSingleFS : FS :=
  { files := fun p =>
      if p = ["ext", "animation_packs", "S", "meta.txt"] then some "Width: 8\nHeight: 8\n".toList
      else if p = ["ext", "animation_packs", "S", "frame_0.bm"] then some ['\x01']
      else none,
    dirs := fun p =>
      decide (p ∈ [["ext"], ["ext", "animation_packs"], ["ext", "animation_packs", "S"],
        ["ext", "dolphin"]]) }

-- ===================================================================
-- Path lemmas
-- ===================================================================

theorem pathUnder_append (p r : FPath) : pathUnder p (p ++ r) = true := by
  induction p with
  | nil => rfl
  | cons a p ih => simp [pathUnder, ih]

theorem pathUnder_append_drop {p q : FPath} (h : pathUnder p q = true) :
    p ++ q.drop p.length = q := by
  induction p generalizing q with
  | nil => simp
  | cons a p ih =>
    cases q with
    | nil => simp [pathUnder] at h
    | cons b q =>
      simp only [pathUnder, Bool.and_eq_true, beq_iff_eq] at h
      obtain ⟨rfl, h2⟩ := h
      simpa using ih h2

theorem pu_dolphin_backup (r : FPath) : pathUnder dolphinPath (dolphinBackupPath ++ r) = false := by
  rfl

theorem pu_backup_dolphin (r : FPath) : pathUnder dolphinBackupPath (dolphinPath ++ r) = false := by
  rfl

theorem pu_dolphin_packs (r : FPath) : pathUnder dolphinPath (animationPacksPath ++ r) = false := by
  rfl

theorem pu_backup_packs (r : FPath) :
    pathUnder dolphinBackupPath (animationPacksPath ++ r) = false := by
  rfl

theorem pu_packs_dolphin (r : FPath) : pathUnder animationPacksPath (dolphinPath ++ r) = false := by
  rfl

theorem pu_packs_backup (r : FPath) :
    pathUnder animationPacksPath (dolphinBackupPath ++ r) = false := by
  rfl

-- ===================================================================
-- Generic list prefix / drop helpers
-- ===================================================================

theorem drop_append_le {α : Type} {xs : List α} (r : List α) :
    ∀ {j : Nat}, j ≤ xs.length → (xs ++ r).drop j = xs.drop j ++ r := by
  induction xs with
  | nil =>
    intro j h
    have hj : j = 0 := Nat.le_zero.mp h
    subst hj; simp
  | cons x xs ih =>
    intro j h
    cases j with
    | zero => simp
    | succ j => simpa using ih (Nat.le_of_succ_le_succ h)

theorem isPrefixOf_append_left {α : Type} [BEq α] [LawfulBEq α] {a xs : List α} (r : List α)
    (h : a.isPrefixOf xs = true) : a.isPrefixOf (xs ++ r) = true := by
  rw [List.isPrefixOf_iff_prefix] at h ⊢
  exact h.trans (List.prefix_append xs r)

theorem isPrefixOf_self_append {α : Type} [BEq α] [LawfulBEq α] (pat r : List α) :
    pat.isPrefixOf (pat ++ r) = true := by
  rw [List.isPrefixOf_iff_prefix]
  exact List.prefix_append pat r

theorem isPrefixOf_length_le {α : Type} [BEq α] [LawfulBEq α] {pat s : List α}
    (h : pat.isPrefixOf s = true) : pat.length ≤ s.length := by
  rw [List.isPrefixOf_iff_prefix] at h
  exact h.length_le

theorem eq_append_drop_of_isPrefixOf {α : Type} [BEq α] [LawfulBEq α] {pat s : List α}
    (h : pat.isPrefixOf s = true) : pat ++ s.drop pat.length = s := by
  rw [List.isPrefixOf_iff_prefix] at h
  exact List.prefix_iff_eq_append.1 h

theorem isPrefixOf_append_of_length_le {α : Type} [BEq α] [LawfulBEq α] {pat xs : List α}
    (r : List α) (h : pat.length ≤ xs.length) :
    pat.isPrefixOf (xs ++ r) = pat.isPrefixOf xs := by
  induction pat generalizing xs with
  | nil => simp
  | cons a pat ih =>
    cases xs with
    | nil => simp at h
    | cons x xs =>
      simp only [List.cons_append, List.isPrefixOf_cons₂]
      rw [ih (Nat.le_of_succ_le_succ h)]

-- ===================================================================
-- `findSub` (strstr) characterization
-- ===================================================================

theorem findSub_some_prefix {hay pat : List Char} :
    ∀ {i : Nat}, findSub hay pat = some i → pat.isPrefixOf (hay.drop i) = true := by
  induction hay with
  | nil =>
    intro i h
    simp only [findSub] at h
    split at h
    · cases h; simpa using ‹pat.isPrefixOf ([] : List Char) = true›
    · cases h
  | cons c t ih =>
    intro i h
    simp only [findSub] at h
    split at h
    · cases h; simpa using ‹pat.isPrefixOf (c :: t) = true›
    · obtain ⟨i', hi', rfl⟩ := Option.map_eq_some'.1 h
      simpa using ih hi'

theorem findSub_some_least {hay pat : List Char} :
    ∀ {i : Nat}, findSub hay pat = some i →
      ∀ j, j < i → pat.isPrefixOf (hay.drop j) = false := by
  induction hay with
  | nil =>
    intro i h j hj
    simp only [findSub] at h
    split at h
    · cases h; omega
    · cases h
  | cons c t ih =>
    intro i h j hj
    simp only [findSub] at h
    split at h
    · cases h; omega
    · obtain ⟨i', hi', rfl⟩ := Option.map_eq_some'.1 h
      cases j with
      | zero => exact Bool.eq_false_iff.mpr ‹¬ pat.isPrefixOf (c :: t) = true›
      | succ j => simpa using ih hi' j (by omega)

theorem findSub_of_least {hay pat : List Char} :
    ∀ {i : Nat}, pat.isPrefixOf (hay.drop i) = true →
      (∀ j, j < i → pat.isPrefixOf (hay.drop j) = false) → findSub hay pat = some i := by
  induction hay with
  | nil =>
    intro i hp hl
    cases i with
    | zero => simp only [findSub]; simp_all
    | succ i =>
      exfalso
      have h0 := hl 0 (by omega)
      simp only [List.drop_nil] at hp h0
      simp [hp] at h0
  | cons c t ih =>
    intro i hp hl
    cases i with
    | zero =>
      simp only [List.drop_zero] at hp
      simp [findSub, hp]
    | succ i =>
      have h0 := hl 0 (by omega)
      simp only [List.drop_zero] at h0
      simp only [findSub, h0]
      simp only [Bool.false_eq_true, if_false]
      have := ih (by simpa using hp) (fun j hj => by simpa using hl (j + 1) (by omega))
      simp [this]

theorem findSub_none {hay pat : List Char} (h : findSub hay pat = none) :
    ∀ j, pat.isPrefixOf (hay.drop j) = false := by
  induction hay with
  | nil =>
    intro j
    simp only [findSub] at h
    split at h
    · cases h
    · rw [List.drop_nil]
      exact Bool.eq_false_iff.mpr ‹¬ pat.isPrefixOf ([] : List Char) = true›
  | cons c t ih =>
    intro j
    simp only [findSub] at h
    split at h
    · cases h
    · cases j with
      | zero => exact Bool.eq_false_iff.mpr ‹¬ pat.isPrefixOf (c :: t) = true›
      | succ j =>
        have ht : findSub t pat = none := by
          cases hc : findSub t pat with
          | none => rfl
          | some k => rw [hc] at h; cases h
        simpa using ih ht j

theorem findSub_isSome_iff_occurs {hay pat : List Char} :
    (findSub hay pat).isSome = true ↔ pat <:+: hay := by
  constructor
  · intro h
    obtain ⟨i, hi⟩ := Option.isSome_iff_exists.1 h
    have hp := findSub_some_prefix hi
    rw [List.isPrefixOf_iff_prefix] at hp
    exact hp.isInfix.trans (List.drop_suffix i hay).isInfix
  · rintro ⟨s, t, rfl⟩
    cases hc : findSub (s ++ pat ++ t) pat with
    | some k => simp
    | none =>
      exfalso
      have := findSub_none hc s.length
      rw [List.append_assoc, List.drop_left] at this
      rw [isPrefixOf_self_append] at this
      cases this

theorem findSub_eq_range_find {hay pat : List Char} (hne : pat ≠ []) :
    findSub hay pat =
      (List.range hay.length).find? (fun i => pat.isPrefixOf (hay.drop i)) := by
  induction hay with
  | nil =>
    cases pat with
    | nil => exact absurd rfl hne
    | cons a p => simp [findSub]
  | cons c t ih =>
    simp only [List.length_cons, List.range_succ_eq_map, List.find?_cons]
    by_cases h0 : pat.isPrefixOf (c :: t) = true
    · simp [findSub, h0]
    · have h0' : pat.isPrefixOf (c :: t) = false := by
        cases hb : pat.isPrefixOf (c :: t) <;> simp_all
      simp only [findSub, List.drop_zero, h0', Bool.false_eq_true, if_false]
      rw [List.find?_map]
      rw [ih]
      congr 1

-- ===================================================================
-- Lines of a buffer
-- ===================================================================

theorem linesOf_ne_nil (s : List Char) : linesOf s ≠ [] := by
  cases s with
  | nil => simp [linesOf]
  | cons c t =>
    simp only [linesOf]
    split
    · simp
    · split <;> simp

theorem linesOf_append_no_newline {xs : List Char} (r : List Char)
    (h : ∀ c ∈ xs, c ≠ '\n') :
    linesOf (xs ++ r) = (xs ++ (linesOf r).headD []) :: (linesOf r).drop 1 := by
  induction xs with
  | nil =>
    simp only [List.nil_append]
    cases hr : linesOf r with
    | nil => exact absurd hr (linesOf_ne_nil r)
    | cons l ls => simp
  | cons x xs ih =>
    have hx : x ≠ '\n' := h x (by simp)
    simp only [List.cons_append, linesOf, if_neg hx, List.append_eq]
    rw [ih (fun c hc => h c (by simp [hc]))]

theorem linesOf_append_newline {xs : List Char} (r : List Char) (h : ∀ c ∈ xs, c ≠ '\n') :
    linesOf (xs ++ '\n' :: r) = xs :: linesOf r := by
  rw [linesOf_append_no_newline ('\n' :: r) h]
  simp [linesOf]

theorem linesOf_head_prefix (t : List Char) : (linesOf t).headD [] <+: t := by
  induction t with
  | nil => simp [linesOf]
  | cons c t ih =>
    simp only [linesOf]
    split
    · simp
    · cases h : linesOf t with
      | nil => exact absurd h (linesOf_ne_nil t)
      | cons l ls =>
        rw [h] at ih
        simp only [h, List.headD_cons] at ih ⊢
        exact List.cons_prefix_cons.mpr ⟨rfl, ih⟩

-- ===================================================================
-- The manifest counting loop counts exactly the `Name:`-initial lines
-- ===================================================================

theorem countNamesLoopF_lines :
    ∀ fuel (s : List Char) (prev : Option Char), s.length ≤ fuel →
      countNamesLoopF fuel s prev =
        (if lineInit prev then ((linesOf s).filter startsWithName).length
         else (((linesOf s).drop 1).filter startsWithName).length) := by
  intro fuel
  induction fuel with
  | zero =>
    intro s prev h
    have hs : s = [] := List.length_eq_zero.mp (Nat.le_zero.mp h)
    subst hs
    simp [countNamesLoopF, linesOf, startsWithName, nameTok, List.filter]
  | succ fuel ih =>
    intro s prev h
    by_cases hp : nameTok.isPrefixOf s = true
    · have hs : nameTok ++ s.drop 5 = s := eq_append_drop_of_isPrefixOf hp
      have hlen : (s.drop 5).length ≤ fuel := by
        have := congrArg List.length hs
        simp only [List.length_append] at this
        simp only [nameTok, List.length_cons, List.length_nil] at this
        omega
      have hrec := ih (s.drop 5) (some ':') hlen
      have hlines : linesOf s =
          (nameTok ++ (linesOf (s.drop 5)).headD []) :: (linesOf (s.drop 5)).drop 1 := by
        conv_lhs => rw [← hs]
        exact linesOf_append_no_newline _ (by decide)
      have hstart : startsWithName (nameTok ++ (linesOf (s.drop 5)).headD []) = true :=
        isPrefixOf_self_append _ _
      simp only [countNamesLoopF, hp, if_true, hrec, hlines]
      have hli : lineInit (some ':') = false := rfl
      rw [hli]
      simp only [List.filter_cons, hstart, if_true, List.length_cons, List.drop_succ_cons,
        List.drop_zero]
      cases hpv : lineInit prev
      · simp
      · simp
        omega
    · have hp' : nameTok.isPrefixOf s = false := Bool.eq_false_iff.mpr hp
      cases s with
      | nil =>
        simp [countNamesLoopF, hp', linesOf, startsWithName, nameTok, List.filter]
      | cons c t =>
        have hlen : t.length ≤ fuel := by simp at h; omega
        by_cases hc : c = '\n'
        · subst hc
          have hrec := ih t (some '\n') hlen
          simp only [countNamesLoopF, hp', Bool.false_eq_true, if_false, hrec]
          have : lineInit (some '\n') = true := rfl
          rw [this]
          have hlines : linesOf ('\n' :: t) = [] :: linesOf t := by simp [linesOf]
          simp only [hlines, if_true, List.filter_cons]
          have : startsWithName ([] : List Char) = false := rfl
          simp only [this, Bool.false_eq_true, if_false, List.drop_succ_cons, List.drop_zero]
          cases hpv : lineInit prev <;> simp
        · have hrec := ih t (some c) hlen
          have hlic : lineInit (some c) = false := by
            simp only [lineInit]
            exact beq_eq_false_iff_ne.mpr hc
          simp only [countNamesLoopF, hp', Bool.false_eq_true, if_false, hrec, hlic]
          cases hlt : linesOf t with
          | nil => exact absurd hlt (linesOf_ne_nil t)
          | cons l ls =>
            have hlines : linesOf (c :: t) = (c :: l) :: ls := by
              simp only [linesOf, if_neg hc, hlt]
            have hstart : startsWithName (c :: l) = false := by
              apply Bool.eq_false_iff.mpr
              intro hcontra
              apply hp
              have h1 : nameTok <+: c :: l := List.isPrefixOf_iff_prefix.mp hcontra
              have h2 : l <+: t := by
                have := linesOf_head_prefix t
                rw [hlt] at this
                simpa using this
              have h3 : (c :: l) <+: (c :: t) := List.cons_prefix_cons.mpr ⟨rfl, h2⟩
              exact List.isPrefixOf_iff_prefix.mpr (h1.trans h3)
            simp only [hlines, hlt, List.filter_cons, hstart, Bool.false_eq_true, if_false,
              List.drop_succ_cons, List.drop_zero]
            cases hpv : lineInit prev <;> simp

-- ===================================================================
-- Claim C4 — manifest validation and Name-entry counting
-- ===================================================================

/-- C4: `validate_and_count` returns `valid = true` iff the literal
header string occurs anywhere in the content; when valid, the count is
exactly the number of line-initial `"Name:"` occurrences (lines beginning
with the token — a mid-line occurrence such as `"XName:"` is never
counted); without the exact header the result is `valid = false` and
`count = 0` regardless of the rest of the content. -/
theorem c4_manifest_valid_and_count (content : List Char) :
    ((theme_manager_parse_manifest content).1 = true ↔ headerTok <:+: content) ∧
    ((theme_manager_parse_manifest content).1 = true →
      (theme_manager_parse_manifest content).2 = countNameLines content) ∧
    ((theme_manager_parse_manifest content).1 = false →
      (theme_manager_parse_manifest content).2 = 0) := by
  unfold theme_manager_parse_manifest
  by_cases h : (findSub content headerTok).isSome = true
  · simp only [h, if_true]
    refine ⟨by simpa using findSub_isSome_iff_occurs.mp h, fun _ => ?_, by simp⟩
    have := countNamesLoopF_lines content.length content none (Nat.le_refl _)
    simpa [countNameLines, lineInit] using this
  · have h' : (findSub content headerTok).isSome = false := Bool.eq_false_iff.mpr h
    simp only [h', Bool.false_eq_true, if_false]
    refine ⟨?_, by simp, by simp⟩
    constructor
    · intro hfalse; cases hfalse
    · intro hinf
      exact absurd (findSub_isSome_iff_occurs.mpr hinf) (by simp [h'])

theorem c4_manifest_witness :
    (theme_manager_parse_manifest demoManifest).1 = true ∧
    (theme_manager_parse_manifest demoManifest).2 = countNameLines demoManifest ∧
    (theme_manager_parse_manifest demoManifest).2 = 2 ∧
    (theme_manager_parse_manifest ("XName: B\n".toList)).2 = 0 :=
  ⟨by decide, (c4_manifest_valid_and_count demoManifest).2.1 (by decide), by decide,
    (c4_manifest_valid_and_count ("XName: B\n".toList)).2.2 (by decide)⟩

-- ===================================================================
-- Claim C3 — first animation name extraction
-- ===================================================================

theorem captureName_eq_take_takeWhile (s : List Char) :
    ∀ n : Nat, captureName s n = (s.takeWhile (fun c => !(c == '\n' || c == '\r'))).take n := by
  induction s with
  | nil => intro n; cases n <;> simp [captureName]
  | cons c t ih =>
    intro n
    cases n with
    | zero => simp [captureName]
    | succ n =>
      simp only [captureName, List.takeWhile_cons]
      cases hc : (c == '\n' || c == '\r') with
      | true => simp [hc]
      | false => simp [hc, ih n]

/-- C3 (counterexample): on `"XName: C \nName: D\n"` the code returns
the name after the mid-line `strstr` hit — `"C "`, untrimmed — while the
claimed line-initial, trailing-trimmed reading would return `"D"`. -/
theorem c3_first_name_counterexample :
    theme_manager_get_first_anim_name demoMixed 64 = some ['C', ' '] ∧
    claimed_first_name demoMixed = some ['D'] ∧
    some (['C', ' '] : List Char) ≠ some (['D'] : List Char) := by
  refine ⟨by decide, by decide, by decide⟩

/-- C3 (amended): `first_name` takes the name from the first occurrence
of `"Name:"` anywhere in the content — a mid-line substring occurrence
such as `"XName:"` also counts — skips following spaces, captures up to
end-of-line or the 63-byte cap, and does not trim trailing whitespace. -/
theorem c3_first_name_amended (content : List Char) :
    theme_manager_get_first_anim_name content 64 = spec_first_name content := by
  unfold theme_manager_get_first_anim_name spec_first_name firstTokenIdx
  rw [← findSub_eq_range_find (by decide : nameTok ≠ [])]
  cases h : findSub content nameTok with
  | none => rfl
  | some i =>
    simp only [captureName_eq_take_takeWhile]
    have h64 : (64 : Nat) - 1 = 63 := rfl
    rw [h64]
    cases hnm : (((content.drop (i + 5)).dropWhile (fun c => c == ' ')).takeWhile
        (fun c => !(c == '\n' || c == '\r'))).take 63 with
    | nil => simp
    | cons a l => simp

-- ===================================================================
-- Claim C5 — meta dimensions parsing
-- ===================================================================

/-- C5: `dimensions` succeeds iff the first `"Width:"` token parses as a
positive integer at most 128 and the first `"Height:"` token parses as a
positive integer at most 64 (the spec-side reading via least token
indices); a missing token or out-of-range value fails the parse as a
whole, and any successful result respects both ranges. -/
theorem scanDimField_eq_spec (content tok : List Char) (bound : Nat) (h : tok ≠ []) :
    scanDimField content tok bound = specDimField content tok bound := by
  unfold scanDimField specDimField firstTokenIdx
  rw [← findSub_eq_range_find h]

theorem scanDimField_bounds {content tok : List Char} {bound v : Nat}
    (h : scanDimField content tok bound = some v) : 0 < v ∧ v ≤ bound := by
  unfold scanDimField at h
  split at h
  · cases h
  · split at h
    · cases h
    · split at h
      · injection h with h
        subst h
        rename_i hcond
        rw [Bool.and_eq_true, decide_eq_true_eq, decide_eq_true_eq] at hcond
        exact hcond
      · cases h

theorem c5_meta_dimensions (content : List Char) :
    theme_manager_parse_meta_dimensions content = spec_meta_dimensions content ∧
    ∀ w h, theme_manager_parse_meta_dimensions content = some (w, h) →
      0 < w ∧ w ≤ 128 ∧ 0 < h ∧ h ≤ 64 := by
  constructor
  · unfold theme_manager_parse_meta_dimensions spec_meta_dimensions
    rw [scanDimField_eq_spec content widthTok 128 (by decide),
        scanDimField_eq_spec content heightTok 64 (by decide)]
  · intro w h heq
    unfold theme_manager_parse_meta_dimensions at heq
    split at heq
    · rename_i w' h' hw hh
      injection heq with heq
      obtain ⟨rfl, rfl⟩ := Prod.mk.injEq .. ▸ Prod.mk.inj heq
      have h1 := scanDimField_bounds hw
      have h2 := scanDimField_bounds hh
      exact ⟨h1.1, h1.2, h2.1, h2.2⟩
    · cases heq

theorem c5_meta_witness :
    theme_manager_parse_meta_dimensions "Width: 48\nHeight: 32\n".toList =
      spec_meta_dimensions "Width: 48\nHeight: 32\n".toList ∧
    (0 < 48 ∧ 48 ≤ 128 ∧ 0 < 32 ∧ 32 ≤ 64) :=
  ⟨(c5_meta_dimensions ("Width: 48\nHeight: 32\n".toList)).1,
    (c5_meta_dimensions ("Width: 48\nHeight: 32\n".toList)).2 48 32 (by decide)⟩

-- ===================================================================
-- Claim C9 — theme scanning and classification order
-- ===================================================================

theorem scanGo_eq_take_filterMap (fs : FS) :
    ∀ (l : List (String × Bool)) (fuel : Nat),
      scanGo fs l fuel =
        ((l.filter (fun e => e.2)).filterMap
          (fun e => (classifyThemeDir fs e.1).map (fun t => (e.1, t)))).take fuel := by
  intro l
  induction l with
  | nil => intro fuel; cases fuel <;> simp [scanGo]
  | cons e rest ih =>
    intro fuel
    obtain ⟨nm, isDir⟩ := e
    cases fuel with
    | zero => simp [scanGo]
    | succ fuel =>
      cases isDir with
      | false => simp [scanGo, List.filter_cons, ih]
      | true =>
        cases hc : classifyThemeDir fs nm with
        | none => simp [scanGo, hc, List.filter_cons, List.filterMap_cons, ih]
        | some t =>
          simp [scanGo, hc, List.filter_cons, List.filterMap_cons, ih, List.take_succ_cons]

/-- C9: every immediate subdirectory is classified by probing in strict
order `manifest.txt` (Pack) → `Anims/manifest.txt` (AnimsPack) →
`meta.txt` (Single), the first existing file winning; a subdirectory
matching none of the three is skipped, and the scan is the total
classification map over the directory listing (non-directories skipped,
capacity 64) — no input makes it fail. -/
theorem c9_scan_classification (fs : FS) (listing : List (String × Bool)) (name : String) :
    (dirExists fs animationPacksPath = true →
      theme_manager_scan_themes fs listing =
        ((listing.filter (fun e => e.2)).filterMap
          (fun e => (classifyThemeDir fs e.1).map (fun t => (e.1, t)))).take 64) ∧
    (fileExists fs (animationPacksPath ++ [name, "manifest.txt"]) = true →
      classifyThemeDir fs name = some ThemeType.Pack) ∧
    (fileExists fs (animationPacksPath ++ [name, "manifest.txt"]) = false →
      fileExists fs (animationPacksPath ++ [name, "Anims", "manifest.txt"]) = true →
      classifyThemeDir fs name = some ThemeType.AnimsPack) ∧
    (fileExists fs (animationPacksPath ++ [name, "manifest.txt"]) = false →
      fileExists fs (animationPacksPath ++ [name, "Anims", "manifest.txt"]) = false →
      fileExists fs (animationPacksPath ++ [name, "meta.txt"]) = true →
      classifyThemeDir fs name = some ThemeType.Single) ∧
    (fileExists fs (animationPacksPath ++ [name, "manifest.txt"]) = false →
      fileExists fs (animationPacksPath ++ [name, "Anims", "manifest.txt"]) = false →
      fileExists fs (animationPacksPath ++ [name, "meta.txt"]) = false →
      classifyThemeDir fs name = none) := by
  refine ⟨?_, ?_, ?_, ?_, ?_⟩
  · intro h
    simp only [theme_manager_scan_themes, h, Bool.not_true, Bool.false_eq_true, if_false]
    exact scanGo_eq_take_filterMap fs listing 64
  · intro h; simp [classifyThemeDir, h]
  · intro h1 h2; simp [classifyThemeDir, h1, h2]
  · intro h1 h2 h3; simp [classifyThemeDir, h1, h2, h3]
  · intro h1 h2 h3; simp [classifyThemeDir, h1, h2, h3]

theorem c9_scan_witness :
    theme_manager_scan_themes demoFS [("T", true), ("junk", true), ("note.txt", false)] =
      [("T", ThemeType.Pack)] ∧ classifyThemeDir demoFS "T" = some ThemeType.Pack := by
  have h := c9_scan_classification demoFS [("T", true), ("junk", true), ("note.txt", false)] "T"
  refine ⟨?_, h.2.1 (by decide)⟩
  rw [h.1 (by decide)]
  decide

-- ===================================================================
-- Claim C8 — preview loading never fails loudly; buffer size is exact
-- ===================================================================

/-- C8: `load_preview` returns `none` — never an error or crash —
whenever the resolved meta file is absent or malformed, or the frame
file's size is zero or exceeds the fixed 2048-byte maximum, or
decompression fails; any successful result carries a bitmap buffer of
exactly `ceil(width / 8) * height` bytes. -/
theorem c8_load_preview (t : ThemeType) (env : PreviewEnv) :
    ((env.metaContent = none ∨
        ∃ mc, env.metaContent = some mc ∧ theme_manager_parse_meta_dimensions mc = none) →
      theme_manager_load_preview t env = none) ∧
    ((env.frameSize = 0 ∨ env.frameSize > 2048) → theme_manager_load_preview t env = none) ∧
    (env.decoded = none → theme_manager_load_preview t env = none) ∧
    (∀ w h bm, theme_manager_load_preview t env = some (w, h, bm) →
      bm.length = ((w + 7) / 8) * h) := by
  refine ⟨?_, ?_, ?_, ?_⟩
  · intro h
    unfold theme_manager_load_preview
    by_cases hr : resolveFirstAnim t env = true
    · rcases h with h | ⟨mc, hmc, hparse⟩
      · simp [hr, h]
      · simp [hr, hmc, hparse]
    · simp [Bool.eq_false_iff.mpr hr]
  · intro h
    unfold theme_manager_load_preview
    by_cases hr : resolveFirstAnim t env = true
    · cases hm : env.metaContent with
      | none => simp [hr, hm]
      | some meta =>
        cases hp : theme_manager_parse_meta_dimensions meta with
        | none => simp [hr, hm, hp]
        | some wh =>
          obtain ⟨w, hh⟩ := wh
          have hsz : (env.frameSize > 2048 || env.frameSize < 2) = true := by
            rcases h with h | h <;> simp [h, Bool.or_eq_true, decide_eq_true_eq]
          by_cases hfe : env.frameExists = true
          · simp [hr, hm, hp, hfe, hsz]
          · simp [hr, hm, hp, Bool.eq_false_iff.mpr hfe]
    · simp [Bool.eq_false_iff.mpr hr]
  · intro h
    unfold theme_manager_load_preview
    by_cases hr : resolveFirstAnim t env = true
    · cases hm : env.metaContent with
      | none => simp [hr, hm]
      | some meta =>
        cases hp : theme_manager_parse_meta_dimensions meta with
        | none => simp [hr, hm, hp]
        | some wh =>
          obtain ⟨w, hh⟩ := wh
          by_cases hfe : env.frameExists = true
          · by_cases hsz : (env.frameSize > 2048 || env.frameSize < 2) = true
            · simp [hr, hm, hp, hfe, hsz]
            · by_cases hro : env.readOk = true
              · simp [hr, hm, hp, hfe, Bool.eq_false_iff.mpr hsz, hro, h]
              · simp [hr, hm, hp, hfe, Bool.eq_false_iff.mpr hsz, Bool.eq_false_iff.mpr hro]
          · simp [hr, hm, hp, Bool.eq_false_iff.mpr hfe]
    · simp [Bool.eq_false_iff.mpr hr]
  · intro w h bm heq
    unfold theme_manager_load_preview at heq
    by_cases hr : resolveFirstAnim t env = true
    · simp only [hr, Bool.not_true, Bool.false_eq_true, if_false] at heq
      cases hm : env.metaContent with
      | none => simp [hm] at heq
      | some meta =>
        simp only [hm] at heq
        cases hp : theme_manager_parse_meta_dimensions meta with
        | none => simp [hp] at heq
        | some wh =>
          obtain ⟨w', h'⟩ := wh
          simp only [hp] at heq
          split at heq
          · cases heq
          · split at heq
            · cases heq
            · split at heq
              · cases heq
              · cases hd : env.decoded with
                | none => simp [hd] at heq
                | some d =>
                  simp only [hd, Option.some.injEq, Prod.mk.injEq] at heq
                  obtain ⟨rfl, rfl, rfl⟩ := heq
                  simp only [List.length_append, List.length_take, List.length_replicate]
                  omega
    · simp [Bool.eq_false_iff.mpr hr] at heq

theorem c8_load_preview_witness :
    theme_manager_load_preview ThemeType.Single
        { manifestContent := none, metaContent := some "Width: 9\nHeight: 2\n".toList,
          frameExists := true, frameSize := 4, readOk := true,
          decoded := some [1, 2, 3, 4] } = some (9, 2, [1, 2, 3, 4]) ∧
    (4 : Nat) = ((9 + 7) / 8) * 2 := by
  constructor
  · decide
  · exact (c8_load_preview ThemeType.Single
      { manifestContent := none, metaContent := some "Width: 9\nHeight: 2\n".toList,
        frameExists := true, frameSize := 4, readOk := true,
        decoded := some [1, 2, 3, 4] }).2.2.2 9 2 [1, 2, 3, 4] (by decide)

-- ===================================================================
-- Claim C10 — backup with no active directory
-- ===================================================================

/-- C10: when the active directory does not exist, backup returns success
immediately and the filesystem — including any pre-existing backup slot
contents — is left completely untouched. -/
theorem c10_backup_no_active (fs : FS) (fl : StorageFaults)
    (h : dirExists fs dolphinPath = false) :
    theme_manager_backup_dolphin fs fl = (true, fs) := by
  unfold theme_manager_backup_dolphin
  simp [h]

theorem c10_backup_witness :
    theme_manager_backup_dolphin demoNoActiveFS okFaults = (true, demoNoActiveFS) ∧
    demoNoActiveFS.files ["ext", "dolphin_backup", "keep.txt"] = some ['k'] :=
  ⟨c10_backup_no_active demoNoActiveFS okFaults (by decide), by decide⟩

-- ===================================================================
-- Claim C2 — apply backs up first and aborts cleanly on backup failure
-- ===================================================================

/-- C2: apply invokes the backup operation first; when backup fails,
apply returns fail, the resulting state is exactly backup's
post-failure state (nothing beyond the backup step ran — no directory
creation, merge, or manifest write), and every path of the active
directory subtree is exactly as it was. -/
theorem c2_apply_backup_first (fs : FS) (fl : StorageFaults) (entry : ThemeType × String)
    (h : (theme_manager_backup_dolphin fs fl).1 = false) :
    (theme_manager_apply_theme fs fl entry).1 = false ∧
    (theme_manager_apply_theme fs fl entry).2 = (theme_manager_backup_dolphin fs fl).2 ∧
    (∀ p, pathUnder dolphinPath p = true →
      (theme_manager_apply_theme fs fl entry).2.files p = fs.files p ∧
      (theme_manager_apply_theme fs fl entry).2.dirs p = fs.dirs p) := by
  have huf : theme_manager_apply_theme fs fl entry =
      (false, (theme_manager_backup_dolphin fs fl).2) := by
    unfold theme_manager_apply_theme
    rcases hb : theme_manager_backup_dolphin fs fl with ⟨b, fs1⟩
    cases b
    · simp [hb]
    · simp [hb] at h
  refine ⟨by rw [huf], by rw [huf], ?_⟩
  intro p hp
  rw [huf]
  obtain ⟨rel, hrel⟩ : ∃ rel, p = dolphinPath ++ rel :=
    ⟨p.drop 2, (pathUnder_append_drop hp).symm⟩
  by_cases hd : dirExists fs dolphinPath = true
  · by_cases hr : fl.renameOk = true
    · exfalso
      unfold theme_manager_backup_dolphin at h
      simp [hd, hr] at h
    · unfold theme_manager_backup_dolphin
      simp only [hd, Bool.not_true, Bool.false_eq_true, if_false,
        Bool.eq_false_iff.mpr hr]
      by_cases hs : dirExists fs dolphinBackupPath = true
      · simp only [hs, if_true]
        subst hrel
        unfold removeRec
        simp [pu_backup_dolphin]
      · simp [hs]
  · exfalso
    unfold theme_manager_backup_dolphin at h
    simp [Bool.eq_false_iff.mpr hd] at h

theorem c2_apply_witness :
    (theme_manager_apply_theme demoFS renameFailFaults (ThemeType.Pack, "T")).1 = false ∧
    (theme_manager_apply_theme demoFS renameFailFaults (ThemeType.Pack, "T")).2.files
        ["ext", "dolphin", "old.txt"] = demoFS.files ["ext", "dolphin", "old.txt"] := by
  have h := c2_apply_backup_first demoFS renameFailFaults (ThemeType.Pack, "T") (by decide)
  exact ⟨h.1, (h.2.2 ["ext", "dolphin", "old.txt"] (by decide)).1⟩

-- ===================================================================
-- Claim C6 — restore semantics
-- ===================================================================

/-- C6: when the backup slot does not exist, restore returns fail and
changes nothing at all; when the slot exists and the rename goes through,
restore succeeds, having first destructively removed any existing active
directory and then renamed the slot onto it — afterwards each active
path holds exactly what the corresponding slot path held, and the slot
is gone. -/
theorem c6_restore (fs : FS) (fl : StorageFaults) :
    (dirExists fs dolphinBackupPath = false →
      theme_manager_restore_backup fs fl = (false, fs)) ∧
    (dirExists fs dolphinBackupPath = true → fl.renameOk = true →
      (theme_manager_restore_backup fs fl).1 = true ∧
      (∀ rel, (theme_manager_restore_backup fs fl).2.files (dolphinPath ++ rel) =
        fs.files (dolphinBackupPath ++ rel)) ∧
      (∀ rel, (theme_manager_restore_backup fs fl).2.files (dolphinBackupPath ++ rel) = none) ∧
      (theme_manager_restore_backup fs fl).2.dirs dolphinBackupPath = false) := by
  constructor
  · intro h
    unfold theme_manager_restore_backup
    simp [h]
  · intro hs hr
    unfold theme_manager_restore_backup
    simp only [hs, Bool.not_true, Bool.false_eq_true, if_false, hr, if_true]
    refine ⟨by trivial, ?_, ?_, ?_⟩
    · intro rel
      show (renameOp _ dolphinBackupPath dolphinPath).files _ = _
      unfold renameOp
      simp only [pathUnder_append, if_true]
      have hdrop : (dolphinPath ++ rel).drop dolphinPath.length = rel := List.drop_left _ _
      rw [hdrop]
      by_cases hd : dirExists fs dolphinPath = true
      · simp only [hd, if_true]
        unfold removeRec
        simp [pu_dolphin_backup]
      · simp [hs, hd]
    · intro rel
      show (renameOp _ dolphinBackupPath dolphinPath).files _ = none
      unfold renameOp
      simp [pu_dolphin_backup, pathUnder_append]
    · show (renameOp _ dolphinBackupPath dolphinPath).dirs _ = false
      unfold renameOp
      have h1 : pathUnder dolphinPath dolphinBackupPath = false := by
        have := pu_dolphin_backup []
        simpa using this
      have h2 : pathUnder dolphinBackupPath dolphinBackupPath = true := by
        have := pathUnder_append dolphinBackupPath []
        simpa using this
      simp [h1, h2]

theorem c6_restore_witness :
    theme_manager_restore_backup demoFS okFaults = (false, demoFS) ∧
    (theme_manager_restore_backup demoSlotFS okFaults).1 = true ∧
    (theme_manager_restore_backup demoSlotFS okFaults).2.files ["ext", "dolphin", "keep.txt"] =
      some ['k'] := by
  have h1 := (c6_restore demoFS okFaults).1 (by decide)
  have h2 := (c6_restore demoSlotFS okFaults).2 (by decide) (by decide)
  refine ⟨h1, h2.1, ?_⟩
  have := h2.2.1 ["keep.txt"]
  simpa using this

-- ===================================================================
-- Pointwise behaviour of the storage primitives
-- ===================================================================

theorem removeRec_preserves {fs : FS} {q p : FPath} (h : pathUnder q p = false) :
    (removeRec fs q).files p = fs.files p := by
  unfold removeRec
  simp [h]

theorem renameOp_preserves {fs : FS} {src dst p : FPath}
    (h1 : pathUnder dst p = false) (h2 : pathUnder src p = false) :
    (renameOp fs src dst).files p = fs.files p := by
  unfold renameOp
  simp [h1, h2]

theorem mkdirOp_files (fs : FS) (q p : FPath) : (mkdirOp fs q).files p = fs.files p := rfl

theorem mergeOp_src_to_dst {fs : FS} {src dst : FPath} (rel : FPath) {c : List Char}
    (h : fs.files (src ++ rel) = some c) :
    (mergeOp fs src dst).files (dst ++ rel) = some c := by
  unfold mergeOp
  simp only [pathUnder_append, if_true]
  rw [List.drop_left, h]

theorem mergeOp_preserves {fs : FS} {src dst p : FPath} (h : pathUnder dst p = false) :
    (mergeOp fs src dst).files p = fs.files p := by
  unfold mergeOp
  simp [h]

theorem writeFile_at (fs : FS) (q : FPath) (c : List Char) :
    (writeFile fs q c).files q = some c := by
  unfold writeFile
  simp

theorem writeFile_preserves {fs : FS} {q p : FPath} {c : List Char} (h : p ≠ q) :
    (writeFile fs q c).files p = fs.files p := by
  unfold writeFile
  simp [h]

theorem backup_files_outside {fs : FS} {fl : StorageFaults} {p : FPath}
    (h1 : pathUnder dolphinPath p = false) (h2 : pathUnder dolphinBackupPath p = false) :
    (theme_manager_backup_dolphin fs fl).2.files p = fs.files p := by
  unfold theme_manager_backup_dolphin
  by_cases hd : dirExists fs dolphinPath = true
  · have hrm : (if dirExists fs dolphinBackupPath = true
        then removeRec fs dolphinBackupPath else fs).files p = fs.files p := by
      by_cases hs : dirExists fs dolphinBackupPath = true
      · simp only [hs, if_true]
        exact removeRec_preserves h2
      · simp [hs]
    by_cases hr : fl.renameOk = true
    · simp only [hd, Bool.not_true, Bool.false_eq_true, if_false, hr, if_true]
      rw [renameOp_preserves h2 h1]
      exact hrm
    · simp only [hd, Bool.not_true, Bool.false_eq_true, if_false,
        Bool.eq_false_iff.mpr hr]
      exact hrm
  · simp [Bool.eq_false_iff.mpr hd]

theorem backup_ok_renameOk {fs : FS} {fl : StorageFaults}
    (hd : dirExists fs dolphinPath = true)
    (hb1 : (theme_manager_backup_dolphin fs fl).1 = true) : fl.renameOk = true := by
  unfold theme_manager_backup_dolphin at hb1
  simp only [hd, Bool.not_true, Bool.false_eq_true, if_false] at hb1
  by_cases hr : fl.renameOk = true
  · exact hr
  · simp [Bool.eq_false_iff.mpr hr] at hb1

theorem backup_moves_active {fs : FS} {fl : StorageFaults} (rel : FPath)
    (hd : dirExists fs dolphinPath = true) (hr : fl.renameOk = true) :
    (theme_manager_backup_dolphin fs fl).2.files (dolphinBackupPath ++ rel) =
      fs.files (dolphinPath ++ rel) := by
  unfold theme_manager_backup_dolphin
  simp only [hd, Bool.not_true, Bool.false_eq_true, if_false, hr, if_true]
  show (renameOp _ dolphinPath dolphinBackupPath).files _ = _
  unfold renameOp
  simp only [pathUnder_append, if_true]
  rw [List.drop_left]
  by_cases hs : dirExists fs dolphinBackupPath = true
  · simp only [hs, if_true]
    exact removeRec_preserves (pu_backup_dolphin rel)
  · simp [hs]

-- ===================================================================
-- Claim C1 — what apply does to pre-existing active files
-- ===================================================================

/-- C1 (counterexample): applying Pack theme `T` succeeds, and
`dolphin/old.txt` — present before the apply and absent from the theme's
source tree — is no longer present in the active directory afterwards
(it was moved into the backup slot), contradicting the claim that such
files are still present and unchanged in the active directory. -/
theorem c1_apply_counterexample :
    (theme_manager_apply_theme demoFS okFaults (ThemeType.Pack, "T")).1 = true ∧
    demoFS.files ["ext", "dolphin", "old.txt"] = some ['o', 'l', 'd'] ∧
    demoFS.files ["ext", "animation_packs", "T", "old.txt"] = none ∧
    (theme_manager_apply_theme demoFS okFaults (ThemeType.Pack, "T")).2.files
      ["ext", "dolphin", "old.txt"] = none :=
  ⟨by decide, by decide, by decide, by decide⟩

/-- C1 (amended): for every apply of a Pack or AnimsPack theme that
returns ok, every file of the theme's source tree exists, with identical
content, at its merged destination path under the active directory; and
every file that existed in the active directory before the apply
(whether or not present in the source tree) is afterwards present and
unchanged in the backup slot — the pre-apply active tree is moved there
wholesale before the source tree is merged into a freshly recreated
active directory. -/
theorem c1_apply_pack_amended (fs : FS) (fl : StorageFaults) (t : ThemeType) (name : String)
    (hnotsingle : t ≠ ThemeType.Single)
    (hok : (theme_manager_apply_theme fs fl (t, name)).1 = true) :
    (∀ rel c,
      fs.files (packMergeSrc t name ++ rel) = some c →
      (theme_manager_apply_theme fs fl (t, name)).2.files (dolphinPath ++ rel) = some c) ∧
    (dirExists fs dolphinPath = true →
      ∀ rel c, fs.files (dolphinPath ++ rel) = some c →
        (theme_manager_apply_theme fs fl (t, name)).2.files (dolphinBackupPath ++ rel) =
          some c) := by
  rcases hb : theme_manager_backup_dolphin fs fl with ⟨b, fs1⟩
  have hfs1 : fs1 = (theme_manager_backup_dolphin fs fl).2 := by rw [hb]
  cases b
  · exfalso
    unfold theme_manager_apply_theme at hok
    rw [hb] at hok
    simp at hok
  · have hb1 : (theme_manager_backup_dolphin fs fl).1 = true := by rw [hb]
    have hsrc : ∃ r0 : FPath, r0 ≠ [] ∧
        theme_manager_apply_theme fs fl (t, name) =
          theme_manager_apply_pack (mkdirOp fs1 dolphinPath) fl (animationPacksPath ++ r0) ∧
        packMergeSrc t name = animationPacksPath ++ r0 := by
      cases t with
      | Pack =>
        refine ⟨[name], by simp, ?_, rfl⟩
        unfold theme_manager_apply_theme
        rw [hb]
      | AnimsPack =>
        refine ⟨[name, "Anims"], by simp, ?_, rfl⟩
        unfold theme_manager_apply_theme
        rw [hb]
      | Single => exact absurd rfl hnotsingle
    obtain ⟨r0, -, happ, hmatch⟩ := hsrc
    have hmerge : fl.mergeOk = true := by
      by_contra hm
      rw [happ] at hok
      unfold theme_manager_apply_pack at hok
      simp [Bool.eq_false_iff.mpr hm] at hok
    have happ2 : (theme_manager_apply_theme fs fl (t, name)).2 =
        mergeOp (mkdirOp fs1 dolphinPath) (animationPacksPath ++ r0) dolphinPath := by
      rw [happ]
      unfold theme_manager_apply_pack
      simp [hmerge]
    rw [hmatch]
    constructor
    · intro rel c hc
      rw [happ2]
      apply mergeOp_src_to_dst
      rw [mkdirOp_files]
      rw [hfs1]
      rw [List.append_assoc]
      rw [backup_files_outside (pu_dolphin_packs _) (pu_backup_packs _)]
      rw [← List.append_assoc]
      exact hc
    · intro hd rel c hc
      rw [happ2]
      rw [mergeOp_preserves (pu_dolphin_backup rel)]
      rw [mkdirOp_files]
      rw [hfs1]
      rw [backup_moves_active rel hd (backup_ok_renameOk hd hb1)]
      exact hc

theorem c1_apply_pack_witness :
    (theme_manager_apply_theme demoFS okFaults (ThemeType.Pack, "T")).2.files
      ["ext", "dolphin", "manifest.txt"] = some headerTok ∧
    (theme_manager_apply_theme demoFS okFaults (ThemeType.Pack, "T")).2.files
      ["ext", "dolphin_backup", "old.txt"] = some ['o', 'l', 'd'] := by
  have h := c1_apply_pack_amended demoFS okFaults ThemeType.Pack "T" (by decide) (by decide)
  constructor
  · have := h.1 ["manifest.txt"] headerTok (by decide)
    simpa using this
  · have := h.2 (by decide) ["old.txt"] ['o', 'l', 'd'] (by decide)
    simpa using this

-- ===================================================================
-- Claim C7 — Single apply: merged files plus a synthesized manifest
-- ===================================================================

theorem manifestTail_cons : manifestTail = '\n' :: manifestStats := by decide

theorem manifestHead_decomp :
    manifestHead = "Filetype: Flipper Animation Manifest".toList ++ '\n' ::
      ("Version: 1".toList ++ '\n' :: ('\n' :: "Name: ".toList)) := by decide

theorem linesOf_newline_cons (r : List Char) : linesOf ('\n' :: r) = [] :: linesOf r := by
  simp [linesOf]

theorem singleManifest_lines (nm : List Char) (hnl : ∀ c ∈ nm, c ≠ '\n') :
    linesOf (singleManifestChars nm) =
      "Filetype: Flipper Animation Manifest".toList :: "Version: 1".toList :: [] ::
        ("Name: ".toList ++ nm) :: linesOf manifestStats := by
  unfold singleManifestChars
  rw [manifestHead_decomp, manifestTail_cons]
  simp only [List.append_assoc, List.cons_append, List.nil_append]
  rw [linesOf_append_newline _ (by decide)]
  rw [linesOf_append_newline _ (by decide)]
  rw [linesOf_newline_cons]
  rw [show "Name: ".toList ++ (nm ++ '\n' :: manifestStats) =
      ("Name: ".toList ++ nm) ++ '\n' :: manifestStats from by rw [List.append_assoc]]
  rw [linesOf_append_newline _ ?hno]
  case hno =>
    intro c hc
    rcases List.mem_append.mp hc with h | h
    · exact (by decide : ∀ c ∈ "Name: ".toList, c ≠ '\n') c h
    · exact hnl c h

theorem singleManifest_filter (nm : List Char) (hnl : ∀ c ∈ nm, c ≠ '\n') :
    (linesOf (singleManifestChars nm)).filter startsWithName = ["Name: ".toList ++ nm] := by
  rw [singleManifest_lines nm hnl]
  have hN : startsWithName ("Name: ".toList ++ nm) = true := by
    unfold startsWithName
    rw [isPrefixOf_append_of_length_le nm (by decide)]
    decide
  have hS : (linesOf manifestStats).filter startsWithName = [] := by decide
  rw [List.filter_cons_of_neg (by decide), List.filter_cons_of_neg (by decide),
    List.filter_cons_of_neg (by decide), List.filter_cons_of_pos hN, hS]

theorem singleManifest_parse (nm : List Char) (hnl : ∀ c ∈ nm, c ≠ '\n') :
    theme_manager_parse_manifest (singleManifestChars nm) = (true, 1) := by
  have hvalid : (findSub (singleManifestChars nm) headerTok).isSome = true := by
    rw [findSub_isSome_iff_occurs]
    apply List.IsPrefix.isInfix
    rw [← List.isPrefixOf_iff_prefix]
    unfold singleManifestChars
    rw [List.append_assoc]
    rw [isPrefixOf_append_of_length_le _ (by decide)]
    decide
  unfold theme_manager_parse_manifest
  simp only [hvalid, if_true]
  rw [countNamesLoopF_lines _ _ _ (Nat.le_refl _)]
  rw [singleManifest_filter nm hnl]
  simp [lineInit]

theorem captureName_stops (nm : List Char) :
    ∀ (rest : List Char) (cap : Nat), (∀ c ∈ nm, c ≠ '\n' ∧ c ≠ '\r') →
      nm.length ≤ cap → rest.head? = some '\n' →
      captureName (nm ++ rest) cap = nm := by
  induction nm with
  | nil =>
    intro rest cap h hl hr
    cases rest with
    | nil => simp at hr
    | cons r rs =>
      simp only [List.head?_cons, Option.some.injEq] at hr
      subst hr
      cases cap with
      | zero => rfl
      | succ n => simp [captureName]
  | cons c t ih =>
    intro rest cap h hl hr
    cases cap with
    | zero => simp at hl
    | succ n =>
      have hc := h c (by simp)
      simp only [List.cons_append, captureName, List.append_eq]
      rw [if_neg (by simp [beq_eq_false_iff_ne.mpr hc.1, beq_eq_false_iff_ne.mpr hc.2])]
      rw [ih rest n (fun x hx => h x (by simp [hx])) (by simpa using hl) hr]

theorem singleManifest_first_name (nm : List Char)
    (hnl : ∀ c ∈ nm, c ≠ '\n' ∧ c ≠ '\r') (hne : nm ≠ [])
    (hhead : nm.head? ≠ some ' ') (hlen : nm.length ≤ 63) :
    theme_manager_get_first_anim_name (singleManifestChars nm) 64 = some nm := by
  have hlen55 : manifestHead.length = 55 := by decide
  have hfind : findSub (singleManifestChars nm) nameTok = some 49 := by
    apply findSub_of_least
    · show nameTok.isPrefixOf ((singleManifestChars nm).drop 49) = true
      unfold singleManifestChars
      rw [List.append_assoc]
      rw [drop_append_le _ (by omega)]
      rw [isPrefixOf_append_of_length_le _
        (by have h5 : nameTok.length = 5 := by decide
            simp [List.length_drop, hlen55, h5])]
      decide
    · intro j hj
      unfold singleManifestChars
      rw [List.append_assoc]
      rw [drop_append_le _ (by omega)]
      rw [isPrefixOf_append_of_length_le _
        (by have h5 : nameTok.length = 5 := by decide
            simp [List.length_drop, hlen55, h5]; omega)]
      exact (by decide : ∀ j, j < 49 → nameTok.isPrefixOf (manifestHead.drop j) = false) j hj
  simp only [theme_manager_get_first_anim_name, hfind]
  have hdrop : (singleManifestChars nm).drop (49 + 5) = ' ' :: (nm ++ manifestTail) := by
    unfold singleManifestChars
    rw [List.append_assoc]
    rw [drop_append_le _ (by omega)]
    rw [show manifestHead.drop (49 + 5) = [' '] from by decide]
    rfl
  rw [hdrop]
  obtain ⟨c0, nm', rfl⟩ : ∃ c0 nm', nm = c0 :: nm' := by
    cases nm with
    | nil => exact absurd rfl hne
    | cons a l => exact ⟨a, l, rfl⟩
  have hc0 : (c0 == ' ') = false := by
    apply beq_eq_false_iff_ne.mpr
    intro hceq
    exact hhead (by simp [hceq])
  have hdw : (((' ' : Char) :: (c0 :: nm' ++ manifestTail)).dropWhile (fun c => c == ' ')) =
      c0 :: nm' ++ manifestTail := by
    simp [List.dropWhile_cons, hc0]
  simp only [List.cons_append] at hdw ⊢
  rw [hdw]
  have hcap : captureName (c0 :: (nm' ++ manifestTail)) (64 - 1) = c0 :: nm' := by
    rw [show (c0 :: (nm' ++ manifestTail)) = (c0 :: nm') ++ manifestTail from by simp]
    apply captureName_stops _ _ _ hnl (by simpa using hlen)
    rw [manifestTail_cons]
    rfl
  rw [hcap]
  simp

/-- C7: for every Single theme whose apply returns ok (the theme name
being a possible directory name: nonempty, at most 63 bytes, containing
no newline or CR, not starting with a space, and the theme root being a
directory rather than a file), the active directory contains the theme's
files under the `dolphin/<name>/` subdirectory; the manifest at the root
of the active directory — written with CREATE_ALWAYS, overwriting any
pre-existing manifest — is exactly the synthesized content with the
fixed default stat fields, it parses as valid with exactly one
line-initial `Name:` entry, that unique entry's line is
`"Name: <name>"`, and `first_name` on it returns exactly the theme
name. -/
theorem c7_apply_single (fs : FS) (fl : StorageFaults) (name : String)
    (hnl : ∀ c ∈ name.toList, c ≠ '\n' ∧ c ≠ '\r')
    (hne : name.toList ≠ []) (hhead : name.toList.head? ≠ some ' ')
    (hlen : name.toList.length ≤ 63)
    (hroot : fs.files (animationPacksPath ++ [name]) = none)
    (hok : (theme_manager_apply_theme fs fl (ThemeType.Single, name)).1 = true) :
    (∀ rel c, fs.files (animationPacksPath ++ [name] ++ rel) = some c →
      (theme_manager_apply_theme fs fl (ThemeType.Single, name)).2.files
        (dolphinPath ++ [name] ++ rel) = some c) ∧
    (theme_manager_apply_theme fs fl (ThemeType.Single, name)).2.files dolphinManifestPath =
      some (singleManifestChars name.toList) ∧
    theme_manager_parse_manifest (singleManifestChars name.toList) = (true, 1) ∧
    (linesOf (singleManifestChars name.toList)).filter startsWithName =
      ["Name: ".toList ++ name.toList] ∧
    theme_manager_get_first_anim_name (singleManifestChars name.toList) 64 =
      some name.toList := by
  rcases hb : theme_manager_backup_dolphin fs fl with ⟨b, fs1⟩
  have hfs1 : fs1 = (theme_manager_backup_dolphin fs fl).2 := by rw [hb]
  cases b with
  | false =>
    exfalso
    unfold theme_manager_apply_theme at hok
    rw [hb] at hok
    simp at hok
  | true =>
    have happ : theme_manager_apply_theme fs fl (ThemeType.Single, name) =
        theme_manager_apply_single (mkdirOp fs1 dolphinPath) fl name := by
      unfold theme_manager_apply_theme
      rw [hb]
    rw [happ] at hok
    unfold theme_manager_apply_single at hok
    by_cases hm : fl.mergeOk = true
    swap
    · simp [Bool.eq_false_iff.mpr hm] at hok
    by_cases hopen : fl.manifestOpenOk = true
    swap
    · simp [hm, Bool.eq_false_iff.mpr hopen] at hok
    simp only [hm, hopen, Bool.not_true, Bool.false_eq_true, if_false] at hok
    split at hok
    swap
    · simp at hok
    rename_i hbeq
    have hwr : min fl.writeLen (singleManifestChars name.toList).length =
        (singleManifestChars name.toList).length := beq_iff_eq.mp hbeq
    have happ2 : (theme_manager_apply_theme fs fl (ThemeType.Single, name)).2 =
        writeFile
          (mergeOp (mkdirOp (mkdirOp fs1 dolphinPath) (dolphinPath ++ [name]))
            (animationPacksPath ++ [name]) (dolphinPath ++ [name]))
          dolphinManifestPath (singleManifestChars name.toList) := by
      rw [happ]
      unfold theme_manager_apply_single
      simp only [hm, hopen, Bool.not_true, Bool.false_eq_true, if_false, hbeq, if_true]
      rw [hwr, List.take_length]
    have hnl' : ∀ c ∈ name.toList, c ≠ '\n' := fun c hc => (hnl c hc).1
    refine ⟨?_, ?_, singleManifest_parse name.toList hnl',
      singleManifest_filter name.toList hnl',
      singleManifest_first_name name.toList hnl hne hhead hlen⟩
    · intro rel c hc
      rw [happ2]
      have hne2 : dolphinPath ++ [name] ++ rel ≠ dolphinManifestPath := by
        intro heq
        have h2 : name = "manifest.txt" ∧ rel = [] := by
          simpa [dolphinPath, dolphinManifestPath] using heq
        obtain ⟨hn, hr⟩ := h2
        subst hn
        subst hr
        rw [List.append_nil] at hc
        rw [hroot] at hc
        cases hc
      rw [writeFile_preserves hne2]
      apply mergeOp_src_to_dst
      rw [mkdirOp_files, mkdirOp_files]
      rw [hfs1]
      rw [List.append_assoc]
      rw [backup_files_outside (pu_dolphin_packs _) (pu_backup_packs _)]
      rw [← List.append_assoc]
      exact hc
    · rw [happ2]
      exact writeFile_at _ _ _

set_option maxRecDepth 40000 in
theorem c7_apply_single_witness :
    (theme_manager_apply_theme demoSingleFS okFaults (ThemeType.Single, "S")).2.files
      ["ext", "dolphin", "S", "meta.txt"] = some "Width: 8\nHeight: 8\n".toList ∧
    theme_manager_parse_manifest (singleManifestChars "S".toList) = (true, 1) ∧
    theme_manager_get_first_anim_name (singleManifestChars "S".toList) 64 =
      some "S".toList := by
  have h := c7_apply_single demoSingleFS okFaults "S" (by decide) (by decide) (by decide)
    (by decide) (by decide) (by decide)
  refine ⟨?_, h.2.2.1, h.2.2.2.2⟩
  have := h.1 ["meta.txt"] ("Width: 8\nHeight: 8\n".toList) (by decide)
  simpa using this
